import Mathlib

/-!
Verification of the S3 connection-pool manager
(`s3-connection-pool.js`) and its caller-side configuration glue
(`configureS3` in `aws-s3.js`).

The JavaScript code is shallowly embedded: the pool's `Map` becomes an
association list with unique keys, timestamps become `Nat` milliseconds
passed explicitly as `now`, and object identity of clients and HTTP
agents is modelled by natural-number ids drawn from a fresh-id counter
carried in the state.  A ghost list `retired` records the ids of every
destroyed client/agent so that claims about destroyed entries never
being observed again can be stated.
-/

/-- A credential pair, as copied field-by-field by `_generateKey`. -/
structure Credentials where
  accessKeyId : String
  secretAccessKey : String
deriving DecidableEq, Repr

/-- The connection-configuration object handed to the pool.  `none`
models an absent (`undefined`) property.  Besides the six fields the
fingerprint reads, it carries `maxAttempts`, the one further client
option `_createClient` consults, representative of options that do not
enter the fingerprint. -/
structure S3Options where
  region : Option String
  endpoint : Option String
  forcePathStyle : Option Bool
  tls : Option Bool
  credentials : Option Credentials
  maxAttempts : Option Nat
deriving DecidableEq, Repr

/-- The normalized configuration object built inside `_generateKey`. -/
structure Normalized where
  region : String
  endpoint : Option String
  forcePathStyle : Bool
  tls : Bool
  credentials : Option Credentials
  useIamRole : Bool
deriving DecidableEq, Repr

/-- `options.region || 'us-east-1'`: JavaScript treats an absent value
and the empty string as falsy. -/
def normRegion : Option String → String
  | none => "us-east-1"
  | some r => if r = "" then "us-east-1" else r

/-- `options.endpoint || null`. -/
def normEndpoint : Option String → Option String
  | none => none
  | some e => if e = "" then none else some e

/-- `_generateKey`'s normalization: `options.region || 'us-east-1'`,
`options.endpoint || null`, `options.forcePathStyle || false`,
`options.tls !== undefined ? options.tls : true`, the credential pair
copied verbatim or `null`, and `useIamRole = !options.credentials`. -/
def normalizeConfig (options : S3Options) : Normalized :=
  { region := normRegion options.region
    endpoint := normEndpoint options.endpoint
    forcePathStyle := options.forcePathStyle.getD false
    tls := options.tls.getD true
    credentials := options.credentials
    useIamRole := options.credentials.isNone }

/-- Lower-case hex digit, as emitted by `JSON.stringify` for control
characters. -/
def hexDigit (n : Nat) : Char :=
  Char.ofNat (if n < 10 then 48 + n else 87 + n)

/-- `JSON.stringify`'s escaping of a single character inside a string
literal: quote and backslash are backslash-escaped, the five short
control escapes are used where available, remaining control characters
become `\u00xx`, and every other character is copied verbatim. -/
def escChar (c : Char) : List Char :=
  if c = '"' then ['\\', '"']
  else if c = '\\' then ['\\', '\\']
  else if c.toNat = 8 then ['\\', 'b']
  else if c.toNat = 9 then ['\\', 't']
  else if c.toNat = 10 then ['\\', 'n']
  else if c.toNat = 12 then ['\\', 'f']
  else if c.toNat = 13 then ['\\', 'r']
  else if c.toNat < 32 then ['\\', 'u', '0', '0', hexDigit (c.toNat / 16), hexDigit (c.toNat % 16)]
  else [c]

/-- Escaping of a whole character list. -/
def escL : List Char → List Char
  | [] => []
  | c :: cs => escChar c ++ escL cs

/-- A JSON string literal: opening quote, escaped body, closing quote. -/
def jstr (s : String) : List Char :=
  '"' :: (escL s.data ++ ['"'])

/-- A JSON value for an optional string field (`null` when absent). -/
def jopt : Option String → List Char
  | none => "null".data
  | some s => jstr s

/-- A JSON boolean. -/
def jbool : Bool → List Char
  | true => "true".data
  | false => "false".data

/-- The JSON value `_generateKey` serializes for the credentials field:
`null`, or an object with the two credential fields in fixed order. -/
def jcred : Option Credentials → List Char
  | none => "null".data
  | some c =>
      "\x7b\"accessKeyId\":".data ++ (jstr c.accessKeyId ++
        (",\"secretAccessKey\":".data ++ (jstr c.secretAccessKey ++ "\x7d".data)))

/-- `JSON.stringify(normalized)`: the six fields in the fixed property
order of the object literal in `_generateKey`. -/
def keyChars (n : Normalized) : List Char :=
  "\x7b\"region\":".data ++ (jstr n.region ++
    (",\"endpoint\":".data ++ (jopt n.endpoint ++
      (",\"forcePathStyle\":".data ++ (jbool n.forcePathStyle ++
        (",\"tls\":".data ++ (jbool n.tls ++
          (",\"credentials\":".data ++ (jcred n.credentials ++
            (",\"useIamRole\":".data ++ (jbool n.useIamRole ++ "\x7d".data)))))))))))

/-- `S3ConnectionPool._generateKey`: normalize, then `JSON.stringify`. -/
def generateKey (options : S3Options) : String :=
  ⟨keyChars (normalizeConfig options)⟩

-- Default configuration constants from the top of `s3-connection-pool.js`.

/-- 30 minutes in milliseconds. -/
def DEFAULT_TTL : Nat := 30 * 60 * 1000

/-- 5 minutes in milliseconds. -/
def DEFAULT_CLEANUP_INTERVAL : Nat := 5 * 60 * 1000

def DEFAULT_MAX_SOCKETS : Nat := 50

def DEFAULT_KEEP_ALIVE_MSECS : Nat := 1000

def DEFAULT_CONNECTION_TIMEOUT : Nat := 10000

def DEFAULT_REQUEST_TIMEOUT : Nat := 30000

/-- Options accepted by the `S3ConnectionPool` constructor; `none`
models an absent property. -/
structure PoolOptions where
  ttl : Option Nat := none
  cleanupInterval : Option Nat := none
  maxSockets : Option Nat := none
  keepAliveMsecs : Option Nat := none
  connectionTimeout : Option Nat := none
  requestTimeout : Option Nat := none
deriving DecidableEq, Repr

/-- JavaScript's `x || d` for a numeric option: an absent or zero
(falsy) value yields the default. -/
def resolveNum (v : Option Nat) (d : Nat) : Nat :=
  match v with
  | none => d
  | some n => if n = 0 then d else n

/-- The opaque client handle built by `_createClient`: an identity (for
object identity of the pooled `S3Client`), the full option set it was
constructed from, and the resolved `maxAttempts` (`options.maxAttempts
|| 3`). -/
structure S3ClientHandle where
  id : Nat
  builtFrom : S3Options
  maxAttempts : Nat
deriving DecidableEq, Repr

/-- A pool entry: the client handle, the ids of its two transport
agents, and the bookkeeping fields of the `PoolEntry` class. -/
structure PoolEntry where
  client : S3ClientHandle
  httpsAgentId : Nat
  httpAgentId : Nat
  createdAt : Nat
  lastUsedAt : Nat
  useCount : Nat
deriving DecidableEq, Repr

/-- `PoolEntry.touch`: refresh the last-used timestamp and bump the use
counter. -/
def PoolEntry.touch (e : PoolEntry) (now : Nat) : PoolEntry :=
  { e with lastUsedAt := now, useCount := e.useCount + 1 }

/-- `PoolEntry.isExpired`: `(Date.now() - createdAt) > ttl`.  With `Nat`
truncated subtraction this agrees with the JavaScript comparison for
every `now` (a clock earlier than `createdAt` gives a non-positive
difference, which is never greater than the non-negative TTL). -/
def PoolEntry.isExpired (e : PoolEntry) (now ttl : Nat) : Bool :=
  decide (ttl < now - e.createdAt)

/-- The ids owned by an entry: its client and its two agents. -/
def PoolEntry.entryIds (e : PoolEntry) : List Nat :=
  [e.client.id, e.httpsAgentId, e.httpAgentId]

/-- `PoolEntry.destroy`, instrumented with the exception behaviour of
the agents' `destroy()` methods (`throwsOn a = true` means destroying
agent `a` raises).  Returns the ids of the agents whose `destroy()` was
invoked, and whether an error escapes to the caller.  Both calls sit in
one `try` block whose `catch` ignores the error, so a raise from the
https agent skips the http agent, and no error ever escapes. -/
def PoolEntry.destroyTrace (throwsOn : Nat → Bool) (e : PoolEntry) : List Nat × Bool :=
  if throwsOn e.httpsAgentId then ([e.httpsAgentId], false)
  else ([e.httpsAgentId, e.httpAgentId], false)

/-- The manager state: the keyed store (the JavaScript `Map`, embedded
as an insertion-ordered association list with unique keys), the
constructor-resolved numeric options, whether the cleanup interval
timer is active, plus two ghost fields: the fresh-id counter `nextId`
used to mint client/agent identities, and `retired`, the log of ids of
every destroyed client and agent. -/
structure S3ConnectionPool where
  pool : List (String × PoolEntry)
  ttl : Nat
  cleanupInterval : Nat
  maxSockets : Nat
  keepAliveMsecs : Nat
  connectionTimeout : Nat
  requestTimeout : Nat
  cleanupTimer : Bool
  nextId : Nat
  retired : List Nat
deriving DecidableEq, Repr

/-- The `S3ConnectionPool` constructor: resolve each numeric option with
`||` against its default, start with an empty map, and start the
cleanup interval timer. -/
def mkPool (options : PoolOptions) : S3ConnectionPool :=
  { pool := []
    ttl := resolveNum options.ttl DEFAULT_TTL
    cleanupInterval := resolveNum options.cleanupInterval DEFAULT_CLEANUP_INTERVAL
    maxSockets := resolveNum options.maxSockets DEFAULT_MAX_SOCKETS
    keepAliveMsecs := resolveNum options.keepAliveMsecs DEFAULT_KEEP_ALIVE_MSECS
    connectionTimeout := resolveNum options.connectionTimeout DEFAULT_CONNECTION_TIMEOUT
    requestTimeout := resolveNum options.requestTimeout DEFAULT_REQUEST_TIMEOUT
    cleanupTimer := true
    nextId := 0
    retired := [] }

-- The `Map` operations used by the pool, on the association list.

/-- `Map.get`. -/
def mapGet : List (String × PoolEntry) → String → Option PoolEntry
  | [], _ => none
  | (k', v) :: rest, k => if k' = k then some v else mapGet rest k

/-- `Map.set`: replace in place when the key is present (JavaScript maps
keep the original insertion position), append otherwise. -/
def mapSet : List (String × PoolEntry) → String → PoolEntry → List (String × PoolEntry)
  | [], k, v => [(k, v)]
  | (k', v') :: rest, k, v =>
      if k' = k then (k, v) :: rest else (k', v') :: mapSet rest k v

/-- `Map.delete`. -/
def mapDelete (m : List (String × PoolEntry)) (k : String) : List (String × PoolEntry) :=
  m.filter fun kv => kv.1 != k

/-- The tail of `getClient` shared by the miss and the expired branch:
`_createAgents` mints the two agents, `_createClient` builds the client
with the caller's full option set and `maxAttempts || 3`, a fresh
`PoolEntry` is created, touched once, and stored. -/
def S3ConnectionPool.createNew (s : S3ConnectionPool) (now : Nat) (key : String)
    (options : S3Options) : S3ClientHandle × S3ConnectionPool :=
  let httpsAgentId := s.nextId
  let httpAgentId := s.nextId + 1
  let client : S3ClientHandle := ⟨s.nextId + 2, options, resolveNum options.maxAttempts 3⟩
  let entry := PoolEntry.touch ⟨client, httpsAgentId, httpAgentId, now, now, 0⟩ now
  (client, { s with pool := mapSet s.pool key entry, nextId := s.nextId + 3 })

/-- `S3ConnectionPool.getClient`: derive the key; on a hit with an
unexpired entry, touch it and return its client; otherwise destroy any
stale entry (its ids join the `retired` ghost log), delete it, and
build, touch, and store a fresh entry. -/
def S3ConnectionPool.getClient (s : S3ConnectionPool) (now : Nat)
    (options : S3Options) : S3ClientHandle × S3ConnectionPool :=
  let key := generateKey options
  match mapGet s.pool key with
  | some entry =>
      if entry.isExpired now s.ttl = false then
        (entry.client, { s with pool := mapSet s.pool key (entry.touch now) })
      else
        S3ConnectionPool.createNew
          { s with pool := mapDelete s.pool key, retired := s.retired ++ entry.entryIds }
          now key options
  | none => S3ConnectionPool.createNew s now key options

/-- The body of `cleanup`'s removal loop: look the key up again, and if
an entry is still there, destroy it (ids join the ghost log) and delete
it. -/
def cleanupStep (st : S3ConnectionPool) (k : String) : S3ConnectionPool :=
  match mapGet st.pool k with
  | some entry =>
      { st with pool := mapDelete st.pool k, retired := st.retired ++ entry.entryIds }
  | none => st

/-- `S3ConnectionPool.cleanup`: collect the keys of all entries expired
at the scan instant, then destroy and delete each. -/
def S3ConnectionPool.cleanup (s : S3ConnectionPool) (now : Nat) : S3ConnectionPool :=
  ((s.pool.filter fun kv => kv.2.isExpired now s.ttl).map Prod.fst).foldl cleanupStep s

/-- All ids owned by entries of a store, in iteration order. -/
def poolIds (m : List (String × PoolEntry)) : List Nat :=
  m.flatMap fun kv => kv.2.entryIds

/-- `S3ConnectionPool.shutdown`: stop the cleanup timer, destroy every
entry, clear the map. -/
def S3ConnectionPool.shutdown (s : S3ConnectionPool) : S3ConnectionPool :=
  { s with cleanupTimer := false, pool := [], retired := s.retired ++ poolIds s.pool }

/-- `S3ConnectionPool.clear`: destroy every entry and clear the map,
leaving the timer running. -/
def S3ConnectionPool.clear (s : S3ConnectionPool) : S3ConnectionPool :=
  { s with pool := [], retired := s.retired ++ poolIds s.pool }

/-- One per-entry record of the `getStats` snapshot. -/
structure ConnStat where
  key : String
  age : Nat
  lastUsed : Nat
  useCount : Nat
  isExpired : Bool
deriving DecidableEq, Repr

/-- The `getStats` snapshot. -/
structure Stats where
  totalConnections : Nat
  connections : List ConnStat
deriving DecidableEq, Repr

/-- `key.substring(0, 100) + '...'` from `getStats`. -/
def truncKey (k : String) : String :=
  k.take 100 ++ "..."

/-- `S3ConnectionPool.getStats`. -/
def S3ConnectionPool.getStats (s : S3ConnectionPool) (now : Nat) : Stats :=
  { totalConnections := s.pool.length
    connections := s.pool.map fun kv =>
      { key := truncKey kv.1
        age := now - kv.2.createdAt
        lastUsed := now - kv.2.lastUsedAt
        useCount := kv.2.useCount
        isExpired := kv.2.isExpired now s.ttl } }

-- Module-level singleton (`getPool` / `getPooledS3Client` / `shutdownPool`).

/-- `getPool`: lazily build the singleton on first use. -/
def getPool (g : Option S3ConnectionPool) (options : PoolOptions) :
    S3ConnectionPool × Option S3ConnectionPool :=
  match g with
  | some p => (p, some p)
  | none => let p := mkPool options; (p, some p)

/-- `getPooledS3Client`: `getPool().getClient(options)`; note `getPool`
is called with no options here, so a lazily rebuilt manager uses all
defaults. -/
def getPooledS3Client (g : Option S3ConnectionPool) (now : Nat)
    (options : S3Options) : S3ClientHandle × Option S3ConnectionPool :=
  let p := (getPool g {}).1
  let r := p.getClient now options
  (r.1, some r.2)

/-- `shutdownPool`: shut the instance down and null the module-level
reference. -/
def shutdownPool (g : Option S3ConnectionPool) : Option S3ConnectionPool :=
  match g with
  | some p => let _ := p.shutdown; none
  | none => none

-- The caller-side configuration glue from `aws-s3.js`.

/-- The resolved values `configureS3` reads off the config node: the
`getValue` indirection (msg/flow/global/env lookups) is out of scope,
so each field carries the value it resolves to, with `none` for
`null`/`undefined`. -/
structure AwsConfig where
  accessKeyId : Option String
  secretAccessKey : Option String
  useIamRole : Bool
  endpoint : Option String
  forcepathstyle : Bool
  skiptlsverify : Bool
  region : Option String
deriving DecidableEq, Repr

/-- JavaScript string truthiness: present and non-empty. -/
def truthyS : Option String → Bool
  | none => false
  | some s => s != ""

/-- `configureS3` from `aws-s3.js`: reject a falsy region with a thrown
error; otherwise assemble the options object (endpoint block only when
an endpoint is supplied, credentials only when not using an IAM role
and both parts are truthy). -/
def configureS3 (cfg : AwsConfig) : Except String S3Options :=
  if truthyS cfg.region = false then
    .error "Region is missing in AWS S3 configuration"
  else
    let base : S3Options :=
      { region := cfg.region, endpoint := none, forcePathStyle := none,
        tls := none, credentials := none, maxAttempts := none }
    let withEp :=
      if truthyS cfg.endpoint then
        { base with endpoint := cfg.endpoint,
                    forcePathStyle := some cfg.forcepathstyle,
                    tls := some (!cfg.skiptlsverify) }
      else base
    let withCred :=
      if cfg.useIamRole then withEp
      else
        match cfg.accessKeyId, cfg.secretAccessKey with
        | some a, some k =>
            if a != "" && k != "" then
              { withEp with credentials := some (Credentials.mk a k) }
            else withEp
        | _, _ => withEp
    .ok withCred

/-- The full acquire path of `aws-s3.js`: validate via `configureS3`,
then hand the options to the pooled-client accessor.  A thrown
configuration error propagates before any pool interaction. -/
def configureS3AndGet (cfg : AwsConfig) (g : Option S3ConnectionPool) (now : Nat) :
    Except String (S3ClientHandle × Option S3ConnectionPool) :=
  match configureS3 cfg with
  | .error e => .error e
  | .ok options => .ok (getPooledS3Client g now options)

-- Operation alphabet for claims quantifying over arbitrary operation
-- sequences.

/-- One pool operation. -/
inductive PoolOp where
  | acquire (now : Nat) (options : S3Options)
  | sweep (now : Nat)
  | wipe
  | stop
deriving DecidableEq, Repr

/-- Apply one operation to the manager state. -/
def applyOp (s : S3ConnectionPool) : PoolOp → S3ConnectionPool
  | .acquire now options => (s.getClient now options).2
  | .sweep now => s.cleanup now
  | .wipe => s.clear
  | .stop => s.shutdown

/-- Run a sequence of operations. -/
def runOps (s : S3ConnectionPool) (ops : List PoolOp) : S3ConnectionPool :=
  ops.foldl applyOp s

/-- Keys of the store are pairwise distinct. -/
def KeysNodup (m : List (String × PoolEntry)) : Prop :=
  (m.map Prod.fst).Nodup

instance (m : List (String × PoolEntry)) : Decidable (KeysNodup m) := by
  unfold KeysNodup; infer_instance

/-- The state invariant: unique keys, pairwise-distinct live ids, all
live and retired ids below the fresh counter, and no live id among the
retired ones. -/
def PoolInv (s : S3ConnectionPool) : Prop :=
  KeysNodup s.pool ∧ (poolIds s.pool).Nodup ∧
    (∀ i ∈ poolIds s.pool, i < s.nextId) ∧
    (∀ i ∈ s.retired, i < s.nextId) ∧
    (∀ i ∈ poolIds s.pool, i ∉ s.retired)

instance (s : S3ConnectionPool) : Decidable (PoolInv s) := by
  unfold PoolInv KeysNodup; infer_instance

-- Characterization lemmas for the embedded `Map` operations.

theorem mapGet_mem : ∀ {m : List (String × PoolEntry)} {k : String} {e : PoolEntry},
    mapGet m k = some e → (k, e) ∈ m := by
  intro m
  induction m with
  | nil => intro k e h; simp [mapGet] at h
  | cons kv rest ih =>
    intro k e h
    obtain ⟨k', v⟩ := kv
    simp only [mapGet] at h
    by_cases hk : k' = k
    · subst hk
      rw [if_pos rfl] at h
      injection h with h
      subst h
      exact List.mem_cons_self _ _
    · rw [if_neg hk] at h
      exact List.mem_cons_of_mem _ (ih h)

theorem mapGet_eq_none_iff {m : List (String × PoolEntry)} {k : String} :
    mapGet m k = none ↔ k ∉ m.map Prod.fst := by
  induction m with
  | nil => simp [mapGet]
  | cons kv rest ih =>
    obtain ⟨k', v⟩ := kv
    simp only [mapGet, List.map_cons, List.mem_cons]
    by_cases hk : k' = k
    · subst hk; simp
    · rw [if_neg hk]
      simp only [ih]
      constructor
      · intro h hc
        rcases hc with hc | hc
        · exact hk hc.symm
        · exact h hc
      · intro h hc
        exact h (Or.inr hc)

theorem mapDelete_of_not_mem {m : List (String × PoolEntry)} {k : String}
    (h : k ∉ m.map Prod.fst) : mapDelete m k = m := by
  refine List.filter_eq_self.mpr fun kv hkv => ?_
  rw [bne_iff_ne]
  intro he
  exact h (he ▸ List.mem_map_of_mem Prod.fst hkv)

theorem mapGet_decomp {m : List (String × PoolEntry)} {k : String} {e : PoolEntry}
    (hn : KeysNodup m) (h : mapGet m k = some e) :
    ∃ m1 m2, m = m1 ++ (k, e) :: m2 ∧ k ∉ m1.map Prod.fst ∧ k ∉ m2.map Prod.fst ∧
      (∀ v, mapSet m k v = m1 ++ (k, v) :: m2) ∧ mapDelete m k = m1 ++ m2 := by
  induction m with
  | nil => simp [mapGet] at h
  | cons kv rest ih =>
    obtain ⟨k', v'⟩ := kv
    simp only [mapGet] at h
    rw [KeysNodup, List.map_cons, List.nodup_cons] at hn
    obtain ⟨hk1, hk2⟩ := hn
    by_cases hk : k' = k
    · subst hk
      rw [if_pos rfl] at h
      injection h with h
      subst h
      refine ⟨[], rest, by simp, by simp, hk1, ?_, ?_⟩
      · intro v; simp [mapSet]
      · rw [List.nil_append]
        simp only [mapDelete, List.filter_cons, bne_self_eq_false]
        rw [if_neg (by simp)]
        exact mapDelete_of_not_mem hk1
    · rw [if_neg hk] at h
      obtain ⟨m1, m2, hm, h1, h2, hset, hdel⟩ := ih hk2 h
      refine ⟨(k', v') :: m1, m2, by rw [List.cons_append, hm], ?_, h2, ?_, ?_⟩
      · simp only [List.map_cons, List.mem_cons]
        rintro (hc | hc)
        · exact hk hc.symm
        · exact h1 hc
      · intro v
        simp only [mapSet, if_neg hk, List.cons_append]
        rw [hset v]
      · have hb : (k' != k) = true := by rwa [bne_iff_ne]
        simp only [mapDelete, List.filter_cons, hb, List.cons_append]
        rw [if_pos trivial]
        exact congrArg (fun l => (k', v') :: l) hdel

theorem mapGet_set_self (m : List (String × PoolEntry)) (k : String) (v : PoolEntry) :
    mapGet (mapSet m k v) k = some v := by
  induction m with
  | nil => simp [mapSet, mapGet]
  | cons kv rest ih =>
    obtain ⟨k', v'⟩ := kv
    simp only [mapSet]
    by_cases hk : k' = k
    · rw [if_pos hk]; simp [mapGet]
    · rw [if_neg hk]; simp only [mapGet, if_neg hk]; exact ih

theorem mapGet_set_other {m : List (String × PoolEntry)} {k k' : String} (v : PoolEntry)
    (h : k' ≠ k) : mapGet (mapSet m k v) k' = mapGet m k' := by
  have hkk : k ≠ k' := fun he => h he.symm
  induction m with
  | nil =>
    simp only [mapSet, mapGet]
    rw [if_neg hkk]
  | cons kv rest ih =>
    obtain ⟨k'', v''⟩ := kv
    simp only [mapSet]
    by_cases hk : k'' = k
    · subst hk
      rw [if_pos rfl]
      simp only [mapGet]
      rw [if_neg hkk, if_neg hkk]
    · rw [if_neg hk]
      simp only [mapGet]
      by_cases hk2 : k'' = k'
      · rw [if_pos hk2, if_pos hk2]
      · rw [if_neg hk2, if_neg hk2]; exact ih

theorem mapGet_delete_self (m : List (String × PoolEntry)) (k : String) :
    mapGet (mapDelete m k) k = none := by
  induction m with
  | nil => simp [mapDelete, mapGet]
  | cons kv rest ih =>
    obtain ⟨k', v⟩ := kv
    simp only [mapDelete, List.filter_cons]
    by_cases hk : k' = k
    · subst hk
      simp only [bne_self_eq_false]
      rw [if_neg (by simp)]
      exact ih
    · have hb : (k' != k) = true := by rwa [bne_iff_ne]
      rw [hb, if_pos rfl]
      simp only [mapGet, if_neg hk]
      exact ih

theorem mapGet_delete_other {m : List (String × PoolEntry)} {k k' : String}
    (h : k' ≠ k) : mapGet (mapDelete m k) k' = mapGet m k' := by
  have hkk : k ≠ k' := fun he => h he.symm
  induction m with
  | nil => simp [mapDelete, mapGet]
  | cons kv rest ih =>
    obtain ⟨k'', v⟩ := kv
    simp only [mapDelete, List.filter_cons]
    by_cases hk : k'' = k
    · subst hk
      simp only [bne_self_eq_false]
      rw [if_neg (by simp)]
      have hih : mapGet (mapDelete rest k'') k' = mapGet rest k' := ih
      simp only [mapDelete] at hih
      rw [hih]
      simp only [mapGet]
      rw [if_neg hkk]
    · have hb : (k'' != k) = true := by rwa [bne_iff_ne]
      rw [hb, if_pos rfl]
      simp only [mapGet]
      by_cases hk2 : k'' = k'
      · rw [if_pos hk2, if_pos hk2]
      · rw [if_neg hk2, if_neg hk2]; exact ih

theorem mapSet_absent {m : List (String × PoolEntry)} {k : String} (v : PoolEntry)
    (h : mapGet m k = none) : mapSet m k v = m ++ [(k, v)] := by
  induction m with
  | nil => simp [mapSet]
  | cons kv rest ih =>
    obtain ⟨k', v'⟩ := kv
    simp only [mapGet] at h
    by_cases hk : k' = k
    · rw [if_pos hk] at h; exact absurd h (by simp)
    · rw [if_neg hk] at h
      simp only [mapSet, if_neg hk, List.cons_append]
      rw [ih h]

theorem keysNodup_delete {m : List (String × PoolEntry)} (k : String)
    (hn : KeysNodup m) : KeysNodup (mapDelete m k) :=
  hn.sublist ((List.filter_sublist m).map Prod.fst)

theorem poolIds_append (a b : List (String × PoolEntry)) :
    poolIds (a ++ b) = poolIds a ++ poolIds b := by
  simp [poolIds]

theorem poolIds_cons (kv : String × PoolEntry) (m : List (String × PoolEntry)) :
    poolIds (kv :: m) = kv.2.entryIds ++ poolIds m := by
  simp [poolIds]

theorem mem_poolIds_of_mem {m : List (String × PoolEntry)} {kv : String × PoolEntry}
    (h : kv ∈ m) {i : Nat} (hi : i ∈ kv.2.entryIds) : i ∈ poolIds m := by
  rw [poolIds, List.mem_flatMap]
  exact ⟨kv, h, hi⟩

-- Invariant preservation.

theorem entryIds_touch (e : PoolEntry) (now : Nat) :
    (e.touch now).entryIds = e.entryIds := rfl

theorem poolInv_append (s : S3ConnectionPool) (key : String) (e : PoolEntry) (d : Nat)
    (hInv : PoolInv s) (hkey : key ∉ s.pool.map Prod.fst)
    (hnd : e.entryIds.Nodup)
    (hlow : ∀ i ∈ e.entryIds, s.nextId ≤ i)
    (hhigh : ∀ i ∈ e.entryIds, i < s.nextId + d) :
    PoolInv { s with pool := s.pool ++ [(key, e)], nextId := s.nextId + d } := by
  obtain ⟨hKeys, hNodup, hLt, hRet, hDisj⟩ := hInv
  have hsingle : poolIds [(key, e)] = e.entryIds := by simp [poolIds]
  refine ⟨?_, ?_, ?_, ?_, ?_⟩
  · simp only [KeysNodup, List.map_append, List.map_cons, List.map_nil]
    rw [List.nodup_append]
    refine ⟨hKeys, List.nodup_singleton _, ?_⟩
    intro a ha hb
    rw [List.mem_singleton] at hb
    exact hkey (hb ▸ ha)
  · simp only [poolIds_append, hsingle]
    rw [List.nodup_append]
    refine ⟨hNodup, hnd, ?_⟩
    intro a ha hb
    exact absurd (hlow a hb) (Nat.not_le.mpr (hLt a ha))
  · intro i hi
    rw [poolIds_append, hsingle, List.mem_append] at hi
    rcases hi with hi | hi
    · exact Nat.lt_of_lt_of_le (hLt i hi) (Nat.le_add_right _ _)
    · exact hhigh i hi
  · intro i hi
    exact Nat.lt_of_lt_of_le (hRet i hi) (Nat.le_add_right _ _)
  · intro i hi
    rw [poolIds_append, hsingle, List.mem_append] at hi
    rcases hi with hi | hi
    · exact hDisj i hi
    · intro hc
      exact absurd (hlow i hi) (Nat.not_le.mpr (hRet i hc))

theorem poolInv_createNew {s : S3ConnectionPool} {key : String} {now : Nat} {opts : S3Options}
    (hInv : PoolInv s) (hnone : mapGet s.pool key = none) :
    PoolInv (S3ConnectionPool.createNew s now key opts).2 := by
  have hkey : key ∉ s.pool.map Prod.fst := mapGet_eq_none_iff.mp hnone
  show PoolInv { s with
    pool := mapSet s.pool key
      (PoolEntry.touch ⟨⟨s.nextId + 2, opts, resolveNum opts.maxAttempts 3⟩,
        s.nextId, s.nextId + 1, now, now, 0⟩ now),
    nextId := s.nextId + 3 }
  rw [mapSet_absent _ hnone]
  refine poolInv_append s key _ 3 hInv hkey ?_ ?_ ?_
  · show ([s.nextId + 2, s.nextId, s.nextId + 1] : List Nat).Nodup
    simp
  · intro i hi
    have : i = s.nextId + 2 ∨ i = s.nextId ∨ i = s.nextId + 1 := by
      simpa [PoolEntry.entryIds, PoolEntry.touch] using hi
    omega
  · intro i hi
    have : i = s.nextId + 2 ∨ i = s.nextId ∨ i = s.nextId + 1 := by
      simpa [PoolEntry.entryIds, PoolEntry.touch] using hi
    omega

theorem poolInv_retire {s : S3ConnectionPool} {k : String} {e : PoolEntry}
    (hInv : PoolInv s) (h : mapGet s.pool k = some e) :
    PoolInv { s with pool := mapDelete s.pool k, retired := s.retired ++ e.entryIds } := by
  obtain ⟨hKeys, hNodup, hLt, hRet, hDisj⟩ := hInv
  obtain ⟨m1, m2, hm, h1, h2, hset, hdel⟩ := mapGet_decomp hKeys h
  have hidsEq : poolIds s.pool = poolIds m1 ++ (e.entryIds ++ poolIds m2) := by
    rw [hm, poolIds_append, poolIds_cons]
  have hEBound : ∀ i ∈ e.entryIds, i < s.nextId := fun i hi =>
    hLt i (mem_poolIds_of_mem (mapGet_mem h) hi)
  have hSub : ∀ i ∈ poolIds (m1 ++ m2), i ∈ poolIds s.pool := by
    intro i hi
    rw [poolIds_append, List.mem_append] at hi
    rw [hidsEq, List.mem_append, List.mem_append]
    rcases hi with hi | hi
    · exact Or.inl hi
    · exact Or.inr (Or.inr hi)
  have hNotE : ∀ i ∈ poolIds (m1 ++ m2), i ∉ e.entryIds := by
    rw [hidsEq] at hNodup
    rw [List.nodup_append] at hNodup
    obtain ⟨hA, hEB, hAdisj⟩ := hNodup
    rw [List.nodup_append] at hEB
    obtain ⟨hE, hB, hEdisj⟩ := hEB
    intro i hi
    rw [poolIds_append, List.mem_append] at hi
    rcases hi with hi | hi
    · intro hc
      exact hAdisj hi (List.mem_append_left _ hc)
    · intro hc
      exact hEdisj hc hi
  refine ⟨keysNodup_delete k hKeys, ?_, ?_, ?_, ?_⟩
  · rw [hdel]
    rw [hidsEq] at hNodup
    rw [List.nodup_append] at hNodup
    obtain ⟨hA, hEB, hAdisj⟩ := hNodup
    rw [List.nodup_append] at hEB
    obtain ⟨hE, hB, hEdisj⟩ := hEB
    rw [poolIds_append, List.nodup_append]
    refine ⟨hA, hB, ?_⟩
    intro a ha hb
    exact hAdisj ha (List.mem_append_right _ hb)
  · intro i hi
    rw [hdel] at hi
    exact hLt i (hSub i hi)
  · intro i hi
    rw [List.mem_append] at hi
    rcases hi with hi | hi
    · exact hRet i hi
    · exact hEBound i hi
  · intro i hi
    rw [hdel] at hi
    rw [List.mem_append]
    rintro (hc | hc)
    · exact hDisj i (hSub i hi) hc
    · exact hNotE i hi hc

theorem poolInv_getClient (s : S3ConnectionPool) (now : Nat) (opts : S3Options)
    (hInv : PoolInv s) : PoolInv (s.getClient now opts).2 := by
  cases hget : mapGet s.pool (generateKey opts) with
  | none =>
    simp only [S3ConnectionPool.getClient, hget]
    exact poolInv_createNew hInv hget
  | some e =>
    simp only [S3ConnectionPool.getClient, hget]
    by_cases hexp : e.isExpired now s.ttl = false
    · rw [if_pos hexp]
      obtain ⟨hKeys, hNodup, hLt, hRet, hDisj⟩ := hInv
      obtain ⟨m1, m2, hm, h1, h2, hset, hdel⟩ := mapGet_decomp hKeys hget
      have hpool : mapSet s.pool (generateKey opts) (e.touch now) =
          m1 ++ (generateKey opts, e.touch now) :: m2 := hset _
      have hkeys : (mapSet s.pool (generateKey opts) (e.touch now)).map Prod.fst =
          s.pool.map Prod.fst := by
        rw [hpool, hm]
        simp
      have hids : poolIds (mapSet s.pool (generateKey opts) (e.touch now)) =
          poolIds s.pool := by
        rw [hpool, hm, poolIds_append, poolIds_cons, poolIds_append, poolIds_cons,
          entryIds_touch]
      exact ⟨by rw [KeysNodup, hkeys]; exact hKeys, by rw [hids]; exact hNodup,
        by rw [hids]; exact hLt, hRet, by rw [hids]; exact hDisj⟩
    · rw [if_neg hexp]
      exact poolInv_createNew (poolInv_retire hInv hget)
        (mapGet_delete_self s.pool (generateKey opts))

theorem poolInv_cleanupStep (st : S3ConnectionPool) (k : String)
    (hInv : PoolInv st) : PoolInv (cleanupStep st k) := by
  cases hget : mapGet st.pool k with
  | some e =>
    simp only [cleanupStep, hget]
    exact poolInv_retire hInv hget
  | none =>
    simp only [cleanupStep, hget]
    exact hInv

theorem poolInv_foldl (K : List String) :
    ∀ st : S3ConnectionPool, PoolInv st → PoolInv (K.foldl cleanupStep st) := by
  induction K with
  | nil => intro st h; exact h
  | cons k ks ih =>
    intro st h
    rw [List.foldl_cons]
    exact ih _ (poolInv_cleanupStep st k h)

theorem poolInv_cleanup (s : S3ConnectionPool) (now : Nat)
    (hInv : PoolInv s) : PoolInv (s.cleanup now) :=
  poolInv_foldl _ s hInv

theorem poolInv_shutdown (s : S3ConnectionPool) (hInv : PoolInv s) :
    PoolInv s.shutdown := by
  obtain ⟨hKeys, hNodup, hLt, hRet, hDisj⟩ := hInv
  refine ⟨by simp [KeysNodup, S3ConnectionPool.shutdown], by simp [poolIds, S3ConnectionPool.shutdown],
    by simp [poolIds, S3ConnectionPool.shutdown], ?_, by simp [poolIds, S3ConnectionPool.shutdown]⟩
  intro i hi
  rw [S3ConnectionPool.shutdown] at hi ⊢
  rw [List.mem_append] at hi
  rcases hi with hi | hi
  · exact hRet i hi
  · exact hLt i hi

theorem poolInv_clear (s : S3ConnectionPool) (hInv : PoolInv s) :
    PoolInv s.clear := by
  obtain ⟨hKeys, hNodup, hLt, hRet, hDisj⟩ := hInv
  refine ⟨by simp [KeysNodup, S3ConnectionPool.clear], by simp [poolIds, S3ConnectionPool.clear],
    by simp [poolIds, S3ConnectionPool.clear], ?_, by simp [poolIds, S3ConnectionPool.clear]⟩
  intro i hi
  rw [S3ConnectionPool.clear] at hi ⊢
  rw [List.mem_append] at hi
  rcases hi with hi | hi
  · exact hRet i hi
  · exact hLt i hi

theorem poolInv_applyOp (s : S3ConnectionPool) (op : PoolOp)
    (hInv : PoolInv s) : PoolInv (applyOp s op) := by
  cases op with
  | acquire now opts => exact poolInv_getClient s now opts hInv
  | sweep now => exact poolInv_cleanup s now hInv
  | wipe => exact poolInv_clear s hInv
  | stop => exact poolInv_shutdown s hInv

theorem poolInv_runOps (ops : List PoolOp) :
    ∀ s : S3ConnectionPool, PoolInv s → PoolInv (runOps s ops) := by
  induction ops with
  | nil => intro s h; exact h
  | cons op rest ih =>
    intro s h
    rw [runOps, List.foldl_cons]
    exact ih _ (poolInv_applyOp s op h)

-- Characterizations of `getClient` and `cleanup`.

theorem createNew_eq (s : S3ConnectionPool) (now : Nat) (key : String) (opts : S3Options) :
    s.createNew now key opts =
      (⟨s.nextId + 2, opts, resolveNum opts.maxAttempts 3⟩,
        { s with
            pool := mapSet s.pool key
              ⟨⟨s.nextId + 2, opts, resolveNum opts.maxAttempts 3⟩,
                s.nextId, s.nextId + 1, now, now, 1⟩,
            nextId := s.nextId + 3 }) := rfl

theorem getClient_hit {s : S3ConnectionPool} {now : Nat} {opts : S3Options} {e : PoolEntry}
    (hget : mapGet s.pool (generateKey opts) = some e)
    (hexp : e.isExpired now s.ttl = false) :
    s.getClient now opts =
      (e.client, { s with pool := mapSet s.pool (generateKey opts) (e.touch now) }) := by
  simp only [S3ConnectionPool.getClient, hget, if_pos hexp]

theorem getClient_miss {s : S3ConnectionPool} {now : Nat} {opts : S3Options}
    (hget : mapGet s.pool (generateKey opts) = none) :
    s.getClient now opts = s.createNew now (generateKey opts) opts := by
  simp only [S3ConnectionPool.getClient, hget]

theorem getClient_expired {s : S3ConnectionPool} {now : Nat} {opts : S3Options} {e : PoolEntry}
    (hget : mapGet s.pool (generateKey opts) = some e)
    (hexp : e.isExpired now s.ttl = true) :
    s.getClient now opts =
      S3ConnectionPool.createNew
        { s with pool := mapDelete s.pool (generateKey opts),
                 retired := s.retired ++ e.entryIds } now (generateKey opts) opts := by
  simp only [S3ConnectionPool.getClient, hget, hexp]
  rw [if_neg (by simp)]

theorem mapGet_of_mem {m : List (String × PoolEntry)} (hn : KeysNodup m) {k : String}
    {e : PoolEntry} (h : (k, e) ∈ m) : mapGet m k = some e := by
  induction m with
  | nil => simp at h
  | cons kv rest ih =>
    obtain ⟨k', v⟩ := kv
    rw [KeysNodup, List.map_cons, List.nodup_cons] at hn
    obtain ⟨h1, h2⟩ := hn
    rw [List.mem_cons] at h
    rcases h with h | h
    · rw [Prod.mk.injEq] at h
      obtain ⟨h3, h4⟩ := h
      subst h3; subst h4
      simp [mapGet]
    · have hmem2 : (k, e).1 ∈ List.map Prod.fst rest := List.mem_map_of_mem Prod.fst h
      have hne : k' ≠ k := fun he => h1 (by rw [he]; exact hmem2)
      simp only [mapGet, if_neg hne]
      exact ih h2 h

theorem mem_expiredKeys_iff {s : S3ConnectionPool} {now : Nat} (hn : KeysNodup s.pool)
    {k : String} {e : PoolEntry} (hget : mapGet s.pool k = some e) :
    (k ∈ (s.pool.filter fun kv => kv.2.isExpired now s.ttl).map Prod.fst) ↔
      e.isExpired now s.ttl = true := by
  constructor
  · intro hmem
    rw [List.mem_map] at hmem
    obtain ⟨kv, hkv, hfst⟩ := hmem
    rw [List.mem_filter] at hkv
    obtain ⟨hkvmem, hkvexp⟩ := hkv
    have hkv2 : (k, kv.2) ∈ s.pool := by
      rw [show (k, kv.2) = kv from by rw [← hfst]]
      exact hkvmem
    have := mapGet_of_mem hn hkv2
    rw [hget] at this
    injection this with this
    rw [this]
    exact hkvexp
  · intro hexp
    rw [List.mem_map]
    refine ⟨(k, e), ?_, rfl⟩
    rw [List.mem_filter]
    exact ⟨mapGet_mem hget, hexp⟩

theorem mapGet_cleanupStep (st : S3ConnectionPool) (k k' : String) :
    mapGet (cleanupStep st k).pool k' = if k' = k then none else mapGet st.pool k' := by
  cases hget : mapGet st.pool k with
  | some e =>
    simp only [cleanupStep, hget]
    by_cases hk : k' = k
    · rw [if_pos hk, hk]
      exact mapGet_delete_self _ _
    · rw [if_neg hk]
      exact mapGet_delete_other hk
  | none =>
    simp only [cleanupStep, hget]
    by_cases hk : k' = k
    · rw [if_pos hk, hk]
      exact hget
    · rw [if_neg hk]

theorem mapGet_foldl_cleanup (K : List String) :
    ∀ (st : S3ConnectionPool) (k' : String),
      mapGet (K.foldl cleanupStep st).pool k' =
        if k' ∈ K then none else mapGet st.pool k' := by
  induction K with
  | nil => intro st k'; simp
  | cons k ks ih =>
    intro st k'
    rw [List.foldl_cons, ih]
    by_cases hk : k' ∈ ks
    · rw [if_pos hk, if_pos (List.mem_cons_of_mem _ hk)]
    · rw [if_neg hk, mapGet_cleanupStep]
      by_cases hkk : k' = k
      · rw [if_pos hkk, if_pos (by rw [hkk]; exact List.mem_cons_self _ _)]
      · rw [if_neg hkk, if_neg (by simp [hkk, hk])]

theorem cleanup_get_char (s : S3ConnectionPool) (now : Nat) (hn : KeysNodup s.pool)
    (k : String) :
    mapGet (s.cleanup now).pool k =
      (mapGet s.pool k).bind fun e => if e.isExpired now s.ttl then none else some e := by
  rw [S3ConnectionPool.cleanup, mapGet_foldl_cleanup]
  cases hget : mapGet s.pool k with
  | none =>
    by_cases hmem : k ∈ (s.pool.filter fun kv => kv.2.isExpired now s.ttl).map Prod.fst
    · rw [if_pos hmem]
      simp
    · rw [if_neg hmem]
      simp
  | some e =>
    have hiff := @mem_expiredKeys_iff s now hn k e hget
    by_cases hexp : e.isExpired now s.ttl = true
    · rw [if_pos (hiff.mpr hexp)]
      simp [hexp]
    · have hexp' : e.isExpired now s.ttl = false := by
        cases h : e.isExpired now s.ttl
        · rfl
        · exact absurd h hexp
      rw [if_neg (fun hmem => hexp (hiff.mp hmem))]
      simp [hexp']

-- Injectivity of the fingerprint.  `JSON.stringify` escapes quote and
-- backslash inside string values, so for configurations whose strings
-- contain no control characters (code points below 32) the serialized
-- key determines the normalized configuration: we exhibit the decoder
-- `unesc` and prove the round trip.

/-- All characters of the string are at or above code point 32 (no
control characters, so only the quote/backslash escapes arise). -/
def goodStr (s : String) : Prop := ∀ c ∈ s.data, 32 ≤ c.toNat

def goodOptS : Option String → Prop
  | none => True
  | some s => goodStr s

def goodCred : Option Credentials → Prop
  | none => True
  | some c => goodStr c.accessKeyId ∧ goodStr c.secretAccessKey

/-- The configuration's strings are free of control characters. -/
def goodOptions (o : S3Options) : Prop :=
  goodOptS o.region ∧ goodOptS o.endpoint ∧ goodCred o.credentials

def goodNorm (n : Normalized) : Prop :=
  goodStr n.region ∧ goodOptS n.endpoint ∧ goodCred n.credentials

instance (s : String) : Decidable (goodStr s) :=
  inferInstanceAs (Decidable (∀ c ∈ s.data, 32 ≤ c.toNat))

instance : (o : Option String) → Decidable (goodOptS o)
  | none => isTrue trivial
  | some s => inferInstanceAs (Decidable (goodStr s))

instance : (c : Option Credentials) → Decidable (goodCred c)
  | none => isTrue trivial
  | some c => inferInstanceAs (Decidable (goodStr c.accessKeyId ∧ goodStr c.secretAccessKey))

instance (o : S3Options) : Decidable (goodOptions o) :=
  inferInstanceAs (Decidable (goodOptS o.region ∧ goodOptS o.endpoint ∧ goodCred o.credentials))

theorem escChar_good (c : Char) (h : 32 ≤ c.toNat) :
    escChar c = if c = '"' then ['\\', '"'] else if c = '\\' then ['\\', '\\'] else [c] := by
  have h8 : ¬c.toNat = 8 := by omega
  have h9 : ¬c.toNat = 9 := by omega
  have h10 : ¬c.toNat = 10 := by omega
  have h12 : ¬c.toNat = 12 := by omega
  have h13 : ¬c.toNat = 13 := by omega
  have h32 : ¬c.toNat < 32 := by omega
  rw [escChar]
  simp only [if_neg h8, if_neg h9, if_neg h10, if_neg h12, if_neg h13, if_neg h32]

/-- Decoder for an escaped string body followed by its closing quote:
returns the decoded body and whatever follows the quote. -/
def unesc : List Char → Option (List Char × List Char)
  | [] => none
  | c :: rest =>
    if c = '"' then some ([], rest)
    else if c = '\\' then
      match rest with
      | [] => none
      | d :: rest2 =>
        match unesc rest2 with
        | some (s, r) => some (d :: s, r)
        | none => none
    else
      match unesc rest with
      | some (s, r) => some (c :: s, r)
      | none => none

theorem unesc_escL : ∀ (a r : List Char), (∀ c ∈ a, 32 ≤ c.toNat) →
    unesc (escL a ++ '"' :: r) = some (a, r) := by
  intro a
  induction a with
  | nil =>
    intro r _
    rw [show escL [] ++ '"' :: r = '"' :: r by simp [escL]]
    rw [unesc.eq_def]
    simp
  | cons c cs ih =>
    intro r hgood
    have hc := hgood c (List.mem_cons_self c cs)
    have hcs : ∀ x ∈ cs, 32 ≤ x.toNat := fun x hx => hgood x (List.mem_cons_of_mem c hx)
    have hrec := ih r hcs
    simp only [escL, escChar_good c hc]
    by_cases h1 : c = '"'
    · subst h1
      rw [if_pos rfl]
      rw [show (['\\', '"'] ++ escL cs) ++ '"' :: r = '\\' :: '"' :: (escL cs ++ '"' :: r) by simp]
      rw [unesc.eq_def]
      simp [hrec]
    · by_cases h2 : c = '\\'
      · subst h2
        rw [if_neg h1, if_pos rfl]
        rw [show (['\\', '\\'] ++ escL cs) ++ '"' :: r = '\\' :: '\\' :: (escL cs ++ '"' :: r) by simp]
        rw [unesc.eq_def]
        simp [hrec]
      · rw [if_neg h1, if_neg h2]
        rw [show ([c] ++ escL cs) ++ '"' :: r = c :: (escL cs ++ '"' :: r) by simp]
        rw [unesc.eq_def]
        simp [h1, h2, hrec]

theorem jstr_inj {a b : String} {r1 r2 : List Char} (ha : goodStr a) (hb : goodStr b)
    (heq : jstr a ++ r1 = jstr b ++ r2) : a = b ∧ r1 = r2 := by
  have e1 : jstr a ++ r1 = '"' :: (escL a.data ++ '"' :: r1) := by simp [jstr]
  have e2 : jstr b ++ r2 = '"' :: (escL b.data ++ '"' :: r2) := by simp [jstr]
  rw [e1, e2] at heq
  injection heq with hh heq
  have h1 := unesc_escL a.data r1 ha
  rw [heq, unesc_escL b.data r2 hb] at h1
  injection h1 with h1
  rw [Prod.mk.injEq] at h1
  obtain ⟨h3, h4⟩ := h1
  refine ⟨?_, h4.symm⟩
  cases a; cases b
  exact congrArg String.mk h3.symm

theorem jopt_inj {o1 o2 : Option String} {r1 r2 : List Char}
    (h1 : goodOptS o1) (h2 : goodOptS o2)
    (heq : jopt o1 ++ r1 = jopt o2 ++ r2) : o1 = o2 ∧ r1 = r2 := by
  cases o1 with
  | none =>
    cases o2 with
    | none => exact ⟨rfl, List.append_cancel_left heq⟩
    | some t =>
      have hn : ((jopt (none : Option String) ++ r1).head? : Option Char) = some 'n' := rfl
      have hq : ((jopt (some t) ++ r2).head? : Option Char) = some '"' := rfl
      rw [heq, hq] at hn
      exact absurd hn (by decide)
  | some s =>
    cases o2 with
    | none =>
      have hq : ((jopt (some s) ++ r1).head? : Option Char) = some '"' := rfl
      have hn : ((jopt (none : Option String) ++ r2).head? : Option Char) = some 'n' := rfl
      rw [heq, hn] at hq
      exact absurd hq (by decide)
    | some t =>
      have := jstr_inj h1 h2 heq
      exact ⟨by rw [this.1], this.2⟩

theorem jbool_inj {b1 b2 : Bool} {r1 r2 : List Char}
    (heq : jbool b1 ++ r1 = jbool b2 ++ r2) : b1 = b2 ∧ r1 = r2 := by
  cases b1 <;> cases b2
  · exact ⟨rfl, List.append_cancel_left heq⟩
  · have hf : ((jbool false ++ r1).head? : Option Char) = some 'f' := rfl
    have ht : ((jbool true ++ r2).head? : Option Char) = some 't' := rfl
    rw [heq, ht] at hf
    exact absurd hf (by decide)
  · have ht : ((jbool true ++ r1).head? : Option Char) = some 't' := rfl
    have hf : ((jbool false ++ r2).head? : Option Char) = some 'f' := rfl
    rw [heq, hf] at ht
    exact absurd ht (by decide)
  · exact ⟨rfl, List.append_cancel_left heq⟩

theorem jcred_expand (c : Credentials) (r : List Char) :
    jcred (some c) ++ r =
      "\x7b\"accessKeyId\":".data ++ (jstr c.accessKeyId ++
        (",\"secretAccessKey\":".data ++ (jstr c.secretAccessKey ++ ('\x7d' :: r)))) := by
  simp only [jcred, List.append_assoc]
  rw [show ("\x7d".data : List Char) ++ r = '\x7d' :: r from rfl]

theorem jcred_inj {c1 c2 : Option Credentials} {r1 r2 : List Char}
    (h1 : goodCred c1) (h2 : goodCred c2)
    (heq : jcred c1 ++ r1 = jcred c2 ++ r2) : c1 = c2 ∧ r1 = r2 := by
  cases c1 with
  | none =>
    cases c2 with
    | none => exact ⟨rfl, List.append_cancel_left heq⟩
    | some c =>
      have hn : ((jcred (none : Option Credentials) ++ r1).head? : Option Char) = some 'n' := rfl
      have hb : ((jcred (some c) ++ r2).head? : Option Char) = some '\x7b' := rfl
      rw [heq, hb] at hn
      exact absurd hn (by decide)
  | some c =>
    cases c2 with
    | none =>
      have hb : ((jcred (some c) ++ r1).head? : Option Char) = some '\x7b' := rfl
      have hn : ((jcred (none : Option Credentials) ++ r2).head? : Option Char) = some 'n' := rfl
      rw [heq, hn] at hb
      exact absurd hb (by decide)
    | some d =>
      rw [jcred_expand c r1, jcred_expand d r2] at heq
      replace heq := List.append_cancel_left heq
      obtain ⟨hak, heq⟩ := jstr_inj h1.1 h2.1 heq
      replace heq := List.append_cancel_left heq
      obtain ⟨hsk, heq⟩ := jstr_inj h1.2 h2.2 heq
      injection heq with _ heq
      refine ⟨?_, heq⟩
      cases c; cases d
      simp only [Option.some.injEq, Credentials.mk.injEq]
      exact ⟨hak, hsk⟩

theorem keyChars_inj {n1 n2 : Normalized} (h1 : goodNorm n1) (h2 : goodNorm n2)
    (heq : keyChars n1 = keyChars n2) : n1 = n2 := by
  rw [keyChars, keyChars] at heq
  replace heq := List.append_cancel_left heq
  obtain ⟨hreg, heq⟩ := jstr_inj h1.1 h2.1 heq
  replace heq := List.append_cancel_left heq
  obtain ⟨hep, heq⟩ := jopt_inj h1.2.1 h2.2.1 heq
  replace heq := List.append_cancel_left heq
  obtain ⟨hfps, heq⟩ := jbool_inj heq
  replace heq := List.append_cancel_left heq
  obtain ⟨htls, heq⟩ := jbool_inj heq
  replace heq := List.append_cancel_left heq
  obtain ⟨hcred, heq⟩ := jcred_inj h1.2.2 h2.2.2 heq
  replace heq := List.append_cancel_left heq
  obtain ⟨hiam, _⟩ := jbool_inj heq
  cases n1; cases n2
  simp only [Normalized.mk.injEq]
  exact ⟨hreg, hep, hfps, htls, hcred, hiam⟩

theorem goodNorm_of_goodOptions {o : S3Options} (h : goodOptions o) :
    goodNorm (normalizeConfig o) := by
  obtain ⟨hr, he, hc⟩ := h
  refine ⟨?_, ?_, hc⟩
  · show goodStr (normRegion o.region)
    cases hx : o.region with
    | none => rw [normRegion]; decide
    | some r =>
      rw [normRegion]
      by_cases hre : r = ""
      · rw [if_pos hre]; decide
      · rw [if_neg hre]
        rw [hx] at hr
        exact hr
  · show goodOptS (normEndpoint o.endpoint)
    cases hx : o.endpoint with
    | none => rw [normEndpoint]; trivial
    | some e =>
      rw [normEndpoint]
      by_cases hee : e = ""
      · rw [if_pos hee]; trivial
      · rw [if_neg hee]
        rw [hx] at he
        exact he

/-- The effective semantic fields of a configuration, after the
defaults of `_generateKey` are applied: region, endpoint, path-style,
transport encryption, credentials.  (The sixth serialized field,
`useIamRole`, is derived from the credentials.) -/
def effectiveConfig (o : S3Options) :
    String × Option String × Bool × Bool × Option Credentials :=
  ((normalizeConfig o).region, (normalizeConfig o).endpoint,
    (normalizeConfig o).forcePathStyle, (normalizeConfig o).tls,
    (normalizeConfig o).credentials)

/-- C1: fingerprint derivation is deterministic and injective on the
semantic configuration fields: two configurations (with
control-character-free strings) have equal fingerprints exactly when
their effective region, endpoint, path-style flag, encryption flag and
credentials (after applying defaults for absent fields) agree; any
difference in one of those fields yields different fingerprints. -/
theorem C1_fingerprint_injective (o1 o2 : S3Options)
    (h1 : goodOptions o1) (h2 : goodOptions o2) :
    generateKey o1 = generateKey o2 ↔ effectiveConfig o1 = effectiveConfig o2 := by
  constructor
  · intro h
    have hk : keyChars (normalizeConfig o1) = keyChars (normalizeConfig o2) := by
      rw [generateKey, generateKey] at h
      injection h
    have hn := keyChars_inj (goodNorm_of_goodOptions h1) (goodNorm_of_goodOptions h2) hk
    rw [effectiveConfig, effectiveConfig, hn]
  · intro h
    obtain ⟨e1, e2, e3, e4, e5⟩ :
        (normalizeConfig o1).region = (normalizeConfig o2).region ∧
        (normalizeConfig o1).endpoint = (normalizeConfig o2).endpoint ∧
        (normalizeConfig o1).forcePathStyle = (normalizeConfig o2).forcePathStyle ∧
        (normalizeConfig o1).tls = (normalizeConfig o2).tls ∧
        (normalizeConfig o1).credentials = (normalizeConfig o2).credentials := by
      simpa [effectiveConfig, Prod.ext_iff] using h
    have e6 : (normalizeConfig o1).useIamRole = (normalizeConfig o2).useIamRole := by
      show o1.credentials.isNone = o2.credentials.isNone
      have e5' : o1.credentials = o2.credentials := e5
      rw [e5']
    have hn : normalizeConfig o1 = normalizeConfig o2 := by
      show Normalized.mk (normRegion o1.region) (normEndpoint o1.endpoint)
          (o1.forcePathStyle.getD false) (o1.tls.getD true) o1.credentials
          o1.credentials.isNone =
        Normalized.mk (normRegion o2.region) (normEndpoint o2.endpoint)
          (o2.forcePathStyle.getD false) (o2.tls.getD true) o2.credentials
          o2.credentials.isNone
      rw [Normalized.mk.injEq]
      exact ⟨e1, e2, e3, e4, e5, e6⟩
    rw [generateKey, generateKey, hn]

/-- A sample configuration with explicit credentials. -/
def cfgA : S3Options :=
  ⟨some "us-east-1", none, none, none, some ⟨"AKIAEXAMPLE", "SECRETEXAMPLE"⟩, none⟩

/-- Like `cfgA` but for a different region. -/
def cfgB : S3Options :=
  ⟨some "eu-west-1", none, none, none, some ⟨"AKIAEXAMPLE", "SECRETEXAMPLE"⟩, none⟩

/-- Witness for C1 at two concrete configurations. -/
theorem C1_fingerprint_injective_witness :
    goodOptions cfgA ∧ goodOptions cfgB ∧
      (generateKey cfgA = generateKey cfgB ↔ effectiveConfig cfgA = effectiveConfig cfgB) :=
  ⟨by decide, by decide, C1_fingerprint_injective cfgA cfgB (by decide) (by decide)⟩

/-- C2: a get-or-create call while the stored entry's age is within the
TTL returns that entry's client and bumps its use counter by one
(strictly increasing); a call once the age exceeds the TTL yields a
different client and installs an entry with creation timestamp `now`
and use count reset to 1; and expiry depends only on the creation
timestamp (age-based), never on the last-used timestamp (idle-based). -/
theorem C2_ttl_reuse_and_expiry (s : S3ConnectionPool) (now : Nat) (opts : S3Options)
    (e : PoolEntry) (hInv : PoolInv s)
    (hget : mapGet s.pool (generateKey opts) = some e) :
    ((now - e.createdAt ≤ s.ttl) →
        (s.getClient now opts).1 = e.client ∧
        mapGet (s.getClient now opts).2.pool (generateKey opts) =
          some { e with lastUsedAt := now, useCount := e.useCount + 1 }) ∧
    ((s.ttl < now - e.createdAt) →
        (s.getClient now opts).1.id ≠ e.client.id ∧
        mapGet (s.getClient now opts).2.pool (generateKey opts) =
          some { client := (s.getClient now opts).1,
                 httpsAgentId := s.nextId, httpAgentId := s.nextId + 1,
                 createdAt := now, lastUsedAt := now, useCount := 1 }) ∧
    (∀ lu, PoolEntry.isExpired { e with lastUsedAt := lu } now s.ttl =
        e.isExpired now s.ttl) := by
  refine ⟨?_, ?_, fun lu => rfl⟩
  · intro hle
    have hexp : e.isExpired now s.ttl = false := by
      rw [PoolEntry.isExpired]
      simp [Nat.not_lt.mpr hle]
    rw [getClient_hit hget hexp]
    exact ⟨rfl, mapGet_set_self _ _ _⟩
  · intro hlt
    have hexp : e.isExpired now s.ttl = true := by
      rw [PoolEntry.isExpired]
      simp [hlt]
    have hid : e.client.id < s.nextId :=
      hInv.2.2.1 e.client.id
        (mem_poolIds_of_mem (mapGet_mem hget) (by simp [PoolEntry.entryIds]))
    rw [getClient_expired hget hexp, createNew_eq]
    constructor
    · show s.nextId + 2 ≠ e.client.id
      omega
    · exact mapGet_set_self _ _ _

/-- A configuration used to exercise C2. -/
def cfg2 : S3Options := ⟨some "us-east-1", none, none, none, none, none⟩

/-- The pool state after one acquire of `cfg2` at time 0. -/
def pool2 : S3ConnectionPool :=
  ((mkPool ⟨none, none, none, none, none, none⟩).getClient 0 cfg2).2

/-- The entry stored in `pool2`. -/
def entry2 : PoolEntry := ⟨⟨2, cfg2, 3⟩, 0, 1, 0, 0, 1⟩

/-- Witness for C2: a second acquire at time 100 (within the default
30-minute TTL) reuses the stored client and bumps the counter. -/
theorem C2_ttl_reuse_and_expiry_witness :
    (pool2.getClient 100 cfg2).1 = entry2.client ∧
    mapGet (pool2.getClient 100 cfg2).2.pool (generateKey cfg2) =
      some { entry2 with lastUsedAt := 100, useCount := entry2.useCount + 1 } :=
  (C2_ttl_reuse_and_expiry pool2 100 cfg2 entry2 (by decide) (by decide)).1 (by decide)

/-- C9: the fingerprint depends only on the six normalized fields, so a
second caller whose configuration agrees on those fields (but may
differ in any other client option, such as `maxAttempts`) maps to the
same pool key and, within the TTL, receives the client built from the
first caller's full option set (with the first caller's resolved
`maxAttempts`). -/
theorem C9_key_ignores_other_options (s : S3ConnectionPool) (now now' : Nat)
    (opts1 opts2 : S3Options)
    (heff : normalizeConfig opts1 = normalizeConfig opts2)
    (hget : mapGet s.pool (generateKey opts1) = none)
    (httl : now' - now ≤ s.ttl) :
    generateKey opts1 = generateKey opts2 ∧
    ((s.getClient now opts1).2.getClient now' opts2).1 = (s.getClient now opts1).1 ∧
    (s.getClient now opts1).1.builtFrom = opts1 ∧
    (s.getClient now opts1).1.maxAttempts = resolveNum opts1.maxAttempts 3 := by
  have hkey : generateKey opts1 = generateKey opts2 := by
    rw [generateKey, generateKey, heff]
  refine ⟨hkey, ?_, ?_, ?_⟩
  · rw [getClient_miss hget, createNew_eq]
    have hget2 : mapGet
        (mapSet s.pool (generateKey opts1)
          ⟨⟨s.nextId + 2, opts1, resolveNum opts1.maxAttempts 3⟩,
            s.nextId, s.nextId + 1, now, now, 1⟩) (generateKey opts2) =
        some ⟨⟨s.nextId + 2, opts1, resolveNum opts1.maxAttempts 3⟩,
          s.nextId, s.nextId + 1, now, now, 1⟩ := by
      rw [← hkey]
      exact mapGet_set_self _ _ _
    have hexp : PoolEntry.isExpired
        ⟨⟨s.nextId + 2, opts1, resolveNum opts1.maxAttempts 3⟩,
          s.nextId, s.nextId + 1, now, now, 1⟩ now' s.ttl = false := by
      rw [PoolEntry.isExpired]
      simp [Nat.not_lt.mpr httl]
    simp [S3ConnectionPool.getClient, hget2, hexp]
  · rw [getClient_miss hget, createNew_eq]
  · rw [getClient_miss hget, createNew_eq]

/-- A configuration with no `maxAttempts`. -/
def cfg9a : S3Options := ⟨some "us-east-1", none, none, none, none, none⟩

/-- The same effective configuration but with `maxAttempts` set. -/
def cfg9b : S3Options := ⟨some "us-east-1", none, none, none, none, some 10⟩

/-- A fresh default manager for the C9 witness. -/
def pool9 : S3ConnectionPool := mkPool ⟨none, none, none, none, none, none⟩

/-- Witness for C9 at two concrete configurations differing only in
`maxAttempts`. -/
theorem C9_key_ignores_other_options_witness :
    generateKey cfg9a = generateKey cfg9b ∧
    ((pool9.getClient 0 cfg9a).2.getClient 500 cfg9b).1 = (pool9.getClient 0 cfg9a).1 ∧
    (pool9.getClient 0 cfg9a).1.builtFrom = cfg9a ∧
    (pool9.getClient 0 cfg9a).1.maxAttempts = resolveNum cfg9a.maxAttempts 3 :=
  C9_key_ignores_other_options pool9 0 500 cfg9a cfg9b (by decide) (by decide) (by decide)

/-- C10: constructing the manager with an explicit zero for any numeric
option silently falls back to the built-in default for that option
(JavaScript `||` treats 0 as falsy), identically to omitting them all. -/
theorem C10_zero_options_use_defaults :
    mkPool ⟨some 0, some 0, some 0, some 0, some 0, some 0⟩ =
      mkPool ⟨none, none, none, none, none, none⟩ ∧
    (mkPool ⟨some 0, some 0, some 0, some 0, some 0, some 0⟩).ttl = DEFAULT_TTL ∧
    (mkPool ⟨some 0, some 0, some 0, some 0, some 0, some 0⟩).cleanupInterval =
      DEFAULT_CLEANUP_INTERVAL ∧
    (mkPool ⟨some 0, some 0, some 0, some 0, some 0, some 0⟩).maxSockets =
      DEFAULT_MAX_SOCKETS ∧
    (mkPool ⟨some 0, some 0, some 0, some 0, some 0, some 0⟩).keepAliveMsecs =
      DEFAULT_KEEP_ALIVE_MSECS ∧
    (mkPool ⟨some 0, some 0, some 0, some 0, some 0, some 0⟩).connectionTimeout =
      DEFAULT_CONNECTION_TIMEOUT ∧
    (mkPool ⟨some 0, some 0, some 0, some 0, some 0, some 0⟩).requestTimeout =
      DEFAULT_REQUEST_TIMEOUT := by
  decide

/-- An entry used by the C7 counterexample and witness. -/
def entry7 : PoolEntry :=
  ⟨⟨2, ⟨some "us-east-1", none, none, none, none, none⟩, 3⟩, 0, 1, 0, 0, 1⟩

/-- C7 counterexample: when closing the encrypted-transport (https)
agent raises, the error is swallowed, but the plaintext-transport
(http) agent's `destroy()` is never invoked — both calls share one
`try` block — so destruction does not close both agents. -/
theorem C7_counterexample :
    (PoolEntry.destroyTrace (fun a => a == entry7.httpsAgentId) entry7).2 = false ∧
    entry7.httpAgentId ∉
      (PoolEntry.destroyTrace (fun a => a == entry7.httpsAgentId) entry7).1 := by
  decide

/-- C7 amended: destruction never propagates an error to its caller;
when no close raises, both transport agents are closed (https first,
then http); if closing the https agent raises, the http agent's close
is skipped. -/
theorem C7_destroy_swallows_errors (e : PoolEntry) (throwsOn : Nat → Bool) :
    (PoolEntry.destroyTrace throwsOn e).2 = false ∧
    (throwsOn e.httpsAgentId = false →
      (PoolEntry.destroyTrace throwsOn e).1 = [e.httpsAgentId, e.httpAgentId]) ∧
    (throwsOn e.httpsAgentId = true →
      (PoolEntry.destroyTrace throwsOn e).1 = [e.httpsAgentId]) := by
  refine ⟨?_, ?_, ?_⟩
  · by_cases h : throwsOn e.httpsAgentId <;> simp [PoolEntry.destroyTrace, h]
  · intro h
    simp [PoolEntry.destroyTrace, h]
  · intro h
    simp [PoolEntry.destroyTrace, h]

/-- Witness for C7 (amended): with no raising agents both closes run. -/
theorem C7_destroy_swallows_errors_witness :
    (PoolEntry.destroyTrace (fun _ => false) entry7).2 = false ∧
    (PoolEntry.destroyTrace (fun _ => false) entry7).1 =
      [entry7.httpsAgentId, entry7.httpAgentId] :=
  ⟨(C7_destroy_swallows_errors entry7 (fun _ => false)).1,
    (C7_destroy_swallows_errors entry7 (fun _ => false)).2.1 rfl⟩

/-- C6: shutdown stops the background sweep timer, destroys every entry
and leaves the store empty; it is idempotent; and after the module
level `shutdownPool` nulls the singleton, a subsequent pooled-client
request succeeds by lazily building a fresh default manager. -/
theorem C6_shutdown_semantics (s : S3ConnectionPool) (g : Option S3ConnectionPool)
    (now : Nat) (opts : S3Options) :
    s.shutdown.cleanupTimer = false ∧
    s.shutdown.pool = [] ∧
    (∀ kv ∈ s.pool, ∀ i ∈ kv.2.entryIds, i ∈ s.shutdown.retired) ∧
    s.shutdown.shutdown = s.shutdown ∧
    shutdownPool g = none ∧
    getPooledS3Client (shutdownPool g) now opts =
      (((mkPool ⟨none, none, none, none, none, none⟩).getClient now opts).1,
        some ((mkPool ⟨none, none, none, none, none, none⟩).getClient now opts).2) := by
  have hnull : shutdownPool g = none := by cases g <;> rfl
  refine ⟨rfl, rfl, ?_, ?_, hnull, ?_⟩
  · intro kv hkv i hi
    show i ∈ s.retired ++ poolIds s.pool
    exact List.mem_append_right _ (mem_poolIds_of_mem hkv hi)
  · simp [S3ConnectionPool.shutdown, poolIds]
  · rw [hnull]
    rfl

/-- A configuration used by the C6 witness. -/
def cfg6 : S3Options := ⟨some "eu-central-1", none, none, none, none, none⟩

/-- A one-entry pool used by the C6 witness. -/
def pool6 : S3ConnectionPool :=
  ((mkPool ⟨none, none, none, none, none, none⟩).getClient 0 cfg6).2

/-- Witness for C6 at a concrete one-entry pool. -/
theorem C6_shutdown_semantics_witness :
    pool6.shutdown.cleanupTimer = false ∧
    pool6.shutdown.pool = [] ∧
    (∀ kv ∈ pool6.pool, ∀ i ∈ kv.2.entryIds, i ∈ pool6.shutdown.retired) ∧
    pool6.shutdown.shutdown = pool6.shutdown ∧
    shutdownPool (some pool6) = none ∧
    getPooledS3Client (shutdownPool (some pool6)) 7 cfg6 =
      (((mkPool ⟨none, none, none, none, none, none⟩).getClient 7 cfg6).1,
        some ((mkPool ⟨none, none, none, none, none, none⟩).getClient 7 cfg6).2) :=
  C6_shutdown_semantics pool6 (some pool6) 7 cfg6

/-- A configuration lacking a region. -/
def noRegionCfg : S3Options := ⟨none, none, none, none, none, none⟩

/-- C4 counterexample: the pool itself does substitute a default region
for a configuration that lacks one — the fingerprint of a region-less
configuration equals that of an explicit `us-east-1` configuration, and
the pool happily serves the region-less configuration, storing its
entry under the `us-east-1` key instead of rejecting it. -/
theorem C4_counterexample :
    generateKey noRegionCfg = generateKey cfg2 ∧
    mapGet ((mkPool ⟨none, none, none, none, none, none⟩).getClient 0 noRegionCfg).2.pool
        (generateKey cfg2) =
      some ⟨⟨2, noRegionCfg, 3⟩, 0, 1, 0, 0, 1⟩ := by
  decide

/-- C4 amended: a configuration with a falsy region is rejected
synchronously by `configureS3` — before any pool interaction — with the
thrown region error; but the pool itself performs no such validation:
its key derivation silently substitutes the default region
`us-east-1` for a region-less configuration, while the options
forwarded to client construction keep the region absent. -/
theorem C4_region_rejected_but_pool_defaults (cfg : AwsConfig)
    (g : Option S3ConnectionPool) (now : Nat) (s : S3ConnectionPool) (opts : S3Options)
    (hreg : truthyS cfg.region = false) (hopts : opts.region = none)
    (hmiss : mapGet s.pool (generateKey opts) = none) :
    configureS3 cfg = .error ("Region is missing in AWS S3 configuration") ∧
    configureS3AndGet cfg g now = .error ("Region is missing in AWS S3 configuration") ∧
    (normalizeConfig opts).region = "us-east-1" ∧
    (s.getClient now opts).1.builtFrom = opts := by
  have h1 : configureS3 cfg = .error ("Region is missing in AWS S3 configuration") := by
    rw [configureS3, if_pos hreg]
  refine ⟨h1, ?_, ?_, ?_⟩
  · simp only [configureS3AndGet, h1]
  · show normRegion opts.region = "us-east-1"
    rw [hopts, normRegion]
  · rw [getClient_miss hmiss, createNew_eq]

/-- The config-node values for the C4 witness: credentials present but
no region. -/
def cfg4 : AwsConfig := ⟨some "AKIAEXAMPLE", some "SECRETEXAMPLE", false, none, false, false, none⟩

/-- Witness for C4 (amended) at concrete inputs. -/
theorem C4_region_rejected_but_pool_defaults_witness :
    configureS3 cfg4 = .error ("Region is missing in AWS S3 configuration") ∧
    configureS3AndGet cfg4 none 0 = .error ("Region is missing in AWS S3 configuration") ∧
    (normalizeConfig noRegionCfg).region = "us-east-1" ∧
    ((mkPool ⟨none, none, none, none, none, none⟩).getClient 0 noRegionCfg).1.builtFrom =
      noRegionCfg :=
  C4_region_rejected_but_pool_defaults cfg4 none 0
    (mkPool ⟨none, none, none, none, none, none⟩) noRegionCfg
    (by decide) (by decide) (by decide)

/-- C5: the sweep removes exactly the entries whose age exceeds the TTL
at the scan instant: a key whose entry has `now - createdAt > ttl` no
longer resolves, and a key whose entry is at or below the TTL resolves
to the identical entry object, retaining its use counter, timestamps
and client handle. -/
theorem C5_sweep_removes_exactly_expired (s : S3ConnectionPool) (now : Nat)
    (hn : KeysNodup s.pool) :
    ∀ k, mapGet (s.cleanup now).pool k =
      (mapGet s.pool k).bind fun e =>
        if s.ttl < now - e.createdAt then none else some e := by
  intro k
  rw [cleanup_get_char s now hn k]
  cases mapGet s.pool k with
  | none => rfl
  | some e =>
    by_cases h : s.ttl < now - e.createdAt
    · simp [PoolEntry.isExpired, h]
    · simp [PoolEntry.isExpired, h]

/-- A two-entry pool for the C5 witness: one young entry and one old
entry relative to the sweep instant. -/
def pool5 : S3ConnectionPool :=
  (((mkPool ⟨some 1000, none, none, none, none, none⟩).getClient 0 cfg9a).2.getClient
    1500 cfg6).2

/-- Witness for C5: sweeping `pool5` at time 1600 (TTL 1000), observed
at the expired entry's key and at the fresh entry's key. -/
theorem C5_sweep_removes_exactly_expired_witness :
    mapGet (pool5.cleanup 1600).pool (generateKey cfg9a) =
      (mapGet pool5.pool (generateKey cfg9a)).bind (fun e =>
        if pool5.ttl < 1600 - e.createdAt then none else some e) ∧
    mapGet (pool5.cleanup 1600).pool (generateKey cfg6) =
      (mapGet pool5.pool (generateKey cfg6)).bind (fun e =>
        if pool5.ttl < 1600 - e.createdAt then none else some e) :=
  ⟨C5_sweep_removes_exactly_expired pool5 1600 (by decide) (generateKey cfg9a),
    C5_sweep_removes_exactly_expired pool5 1600 (by decide) (generateKey cfg6)⟩

theorem countKey_le_one {m : List (String × PoolEntry)} (hn : KeysNodup m) (k : String) :
    (m.filter fun kv => kv.1 == k).length ≤ 1 := by
  induction m with
  | nil => simp
  | cons kv rest ih =>
    obtain ⟨k', v⟩ := kv
    rw [KeysNodup, List.map_cons, List.nodup_cons] at hn
    obtain ⟨h1, h2⟩ := hn
    rw [List.filter_cons]
    by_cases hk : k' = k
    · subst hk
      have hrest : (rest.filter fun kv => kv.1 == k') = [] := by
        rw [List.filter_eq_nil_iff]
        intro kv hkv
        simp only [beq_iff_eq]
        intro he
        have hmem : kv.1 ∈ List.map Prod.fst rest := List.mem_map_of_mem Prod.fst hkv
        rw [he] at hmem
        exact h1 hmem
      simp [hrest]
    · have hb : ((k', v).1 == k) = false := by
        simp only [beq_eq_false_iff_ne]
        exact hk
      rw [hb]
      simp only [Bool.false_eq_true, if_false]
      exact ih h2

/-- C3: after any sequence of pool operations starting from a state
satisfying the pool invariant, the keyed store holds at most one live
entry per fingerprint; no entry reachable by lookup owns an id that was
ever retired by destruction (a destroyed entry is never observed
again); and when a get-or-create replaces an expired entry, the freshly
stored entry shares none of the destroyed entry's client/agent ids —
it is a distinct object with its own agents — while the destroyed
entry's ids are all in the retirement log. -/
theorem C3_at_most_one_live_entry_per_key (s : S3ConnectionPool) (ops : List PoolOp)
    (hInv : PoolInv s) :
    KeysNodup (runOps s ops).pool ∧
    (∀ k, ((runOps s ops).pool.filter fun kv => kv.1 == k).length ≤ 1) ∧
    (∀ k e, mapGet (runOps s ops).pool k = some e →
      ∀ i ∈ e.entryIds, i ∉ (runOps s ops).retired) ∧
    (∀ (s' : S3ConnectionPool) (now : Nat) (opts : S3Options) (e e' : PoolEntry),
      PoolInv s' → mapGet s'.pool (generateKey opts) = some e →
      e.isExpired now s'.ttl = true →
      mapGet (s'.getClient now opts).2.pool (generateKey opts) = some e' →
        (∀ i ∈ e'.entryIds, i ∉ e.entryIds) ∧
        (∀ i ∈ e.entryIds, i ∈ (s'.getClient now opts).2.retired)) := by
  have hInv' := poolInv_runOps ops s hInv
  refine ⟨hInv'.1, fun k => countKey_le_one hInv'.1 k, ?_, ?_⟩
  · intro k e hget i hi
    exact hInv'.2.2.2.2 i (mem_poolIds_of_mem (mapGet_mem hget) hi)
  · intro s' now opts e e' hI hget hexp hget'
    have hbound : ∀ i ∈ e.entryIds, i < s'.nextId := fun i hi =>
      hI.2.2.1 i (mem_poolIds_of_mem (mapGet_mem hget) hi)
    rw [getClient_expired hget hexp, createNew_eq] at hget' ⊢
    have hself := mapGet_set_self
      (mapDelete s'.pool (generateKey opts)) (generateKey opts)
      (⟨⟨s'.nextId + 2, opts, resolveNum opts.maxAttempts 3⟩,
        s'.nextId, s'.nextId + 1, now, now, 1⟩)
    rw [show mapGet
        (mapSet (mapDelete s'.pool (generateKey opts)) (generateKey opts)
          ⟨⟨s'.nextId + 2, opts, resolveNum opts.maxAttempts 3⟩,
            s'.nextId, s'.nextId + 1, now, now, 1⟩) (generateKey opts) =
        some ⟨⟨s'.nextId + 2, opts, resolveNum opts.maxAttempts 3⟩,
          s'.nextId, s'.nextId + 1, now, now, 1⟩ from hself] at hget'
    injection hget' with hget'
    constructor
    · intro i hi hie
      have hilt := hbound i hie
      have : i = s'.nextId + 2 ∨ i = s'.nextId ∨ i = s'.nextId + 1 := by
        rw [← hget'] at hi
        simpa [PoolEntry.entryIds] using hi
      omega
    · intro i hi
      exact List.mem_append_right _ hi

/-- Operations exercised by the C3 witness: two acquires within TTL,
one after expiry, a sweep, a clear, and a shutdown. -/
def ops3 : List PoolOp :=
  [PoolOp.acquire 0 cfg2, PoolOp.acquire 100 cfg2, PoolOp.acquire 2000000 cfg2,
    PoolOp.sweep 4000000, PoolOp.acquire 4000001 cfg6, PoolOp.wipe,
    PoolOp.acquire 4000002 cfg6, PoolOp.stop]

/-- Witness for C3: the invariant consequences at a concrete state and
operation sequence. -/
theorem C3_at_most_one_live_entry_per_key_witness :
    KeysNodup (runOps (mkPool ⟨none, none, none, none, none, none⟩) ops3).pool ∧
    (∀ k, ((runOps (mkPool ⟨none, none, none, none, none, none⟩) ops3).pool.filter
      fun kv => kv.1 == k).length ≤ 1) :=
  ⟨(C3_at_most_one_live_entry_per_key (mkPool ⟨none, none, none, none, none, none⟩)
      ops3 (by decide)).1,
    (C3_at_most_one_live_entry_per_key (mkPool ⟨none, none, none, none, none, none⟩)
      ops3 (by decide)).2.1⟩

/-- Whether `pat` is a prefix of `hay` (character-wise). -/
def startsWithL : List Char → List Char → Bool
  | _, [] => true
  | [], _ :: _ => false
  | h :: hs, p :: ps => h == p && startsWithL hs ps

/-- Whether `pat` occurs contiguously anywhere in `hay`. -/
def containsSub : List Char → List Char → Bool
  | [], pat => startsWithL [] pat
  | h :: t, pat => startsWithL (h :: t) pat || containsSub t pat

/-- Whether `pat` occurs as a substring of `hay`. -/
def containsStr (hay pat : String) : Bool :=
  containsSub hay.data pat.data

/-- A short region together with a short access key id. -/
def cfg8 : S3Options := ⟨some "a", none, none, none, some ⟨"KEY123", "TOPSECRET"⟩, none⟩

/-- The one-entry pool built from `cfg8`. -/
def pool8 : S3ConnectionPool :=
  ((mkPool ⟨none, none, none, none, none, none⟩).getClient 0 cfg8).2

/-- The entry stored in `pool8`. -/
def entry8 : PoolEntry := ⟨⟨2, cfg8, 3⟩, 0, 1, 0, 0, 1⟩

set_option maxRecDepth 100000 in
/-- C8 counterexample: the snapshot's fingerprint truncation
(`key.substring(0, 100) + '...'`) does not redact credential material:
with the short region of `cfg8` the raw access key id (`KEY123`,
supplied in the configuration) appears verbatim inside the reported
key of the stats snapshot. -/
theorem C8_counterexample :
    ((pool8.getStats 0).connections.all fun c => !containsStr c.key ("KEY123")) = false := by
  decide

/-- C8 amended: the stats snapshot reports the total entry count and,
for each entry in store order, the fingerprint truncated to its first
100 characters plus an ellipsis, the entry's age, idle time, use count
and expired flag — the expired flag agreeing with whether a
get-or-create at the same instant would rebuild rather than reuse the
entry.  (The truncation, however, is not a credential redaction: for
short regions the head of the access key id is exposed, see the
counterexample.) -/
theorem C8_stats_report (s : S3ConnectionPool) (now : Nat) :
    (s.getStats now).totalConnections = s.pool.length ∧
    List.Forall₂ (fun (kv : String × PoolEntry) (c : ConnStat) =>
      c.key = kv.1.take 100 ++ "..." ∧ c.age = now - kv.2.createdAt ∧
      c.lastUsed = now - kv.2.lastUsedAt ∧ c.useCount = kv.2.useCount ∧
      c.isExpired = kv.2.isExpired now s.ttl) s.pool (s.getStats now).connections ∧
    (∀ opts e, PoolInv s → mapGet s.pool (generateKey opts) = some e →
      ((s.getClient now opts).1 = e.client ↔ e.isExpired now s.ttl = false)) := by
  refine ⟨rfl, ?_, ?_⟩
  · simp only [S3ConnectionPool.getStats]
    rw [List.forall₂_map_right_iff, List.forall₂_same]
    intro kv _
    exact ⟨rfl, rfl, rfl, rfl, rfl⟩
  · intro opts e hI hget
    by_cases hexp : e.isExpired now s.ttl = false
    · rw [getClient_hit hget hexp]
      exact iff_of_true rfl hexp
    · have hexp' : e.isExpired now s.ttl = true := by
        cases h : e.isExpired now s.ttl
        · exact absurd h hexp
        · rfl
      rw [getClient_expired hget hexp', createNew_eq]
      refine iff_of_false ?_ (by rw [hexp']; simp)
      intro hc
      have hid : e.client.id < s.nextId :=
        hI.2.2.1 e.client.id
          (mem_poolIds_of_mem (mapGet_mem hget) (by simp [PoolEntry.entryIds]))
      have hid2 := congrArg S3ClientHandle.id hc
      simp only at hid2
      omega

set_option maxRecDepth 100000 in
/-- Witness for C8 (amended) at a concrete pool. -/
theorem C8_stats_report_witness :
    (pool8.getStats 0).totalConnections = pool8.pool.length ∧
    ((pool8.getClient 0 cfg8).1 = entry8.client ↔ entry8.isExpired 0 pool8.ttl = false) :=
  ⟨(C8_stats_report pool8 0).1,
    (C8_stats_report pool8 0).2.2 cfg8 entry8 (by decide) (by decide)⟩
